import Mathlib

/-!
Shallow embedding of the PipeWire introspection and reconciliation engine of
the rustban repository (src/system.rs), together with proofs of the frozen
claims about it.  Strings are modelled with Lean `String`; Rust's byte-level
operations on UTF-8 strings coincide with the char-level model on the ASCII
fragment that every comparison constant in the program lives in.
-/

namespace Rustban

/-! ### String helpers mirroring Rust std behaviour -/

/-- ASCII lower-casing of one character, as Rust `u8::to_ascii_lowercase`. -/
def asciiLowerChar (c : Char) : Char :=
  if 'A' ≤ c ∧ c ≤ 'Z' then Char.ofNat (c.toNat + 32) else c

/-- ASCII lower-casing of a string, as Rust `str::to_ascii_lowercase`. -/
def asciiLower (s : String) : String :=
  ⟨s.data.map asciiLowerChar⟩

/-- Rust `str::eq_ignore_ascii_case`. -/
def eqIgnoreAsciiCase (a b : String) : Bool :=
  asciiLower a == asciiLower b

/-- Whether `pat` occurs as a contiguous sublist of `l`. -/
def isInfixB (pat : List Char) : List Char → Bool
  | [] => pat.isEmpty
  | a :: t => pat.isPrefixOf (a :: t) || isInfixB pat t

/-- Rust `str::contains` with a literal pattern. -/
def strContainsSub (s pat : String) : Bool :=
  isInfixB pat.data s.data

/-- Rust `str::starts_with` with a literal pattern. -/
def strStartsWithB (s pat : String) : Bool :=
  pat.data.isPrefixOf s.data

/-- Rust `str::ends_with` with a literal pattern. -/
def strEndsWithB (s pat : String) : Bool :=
  pat.data.isSuffixOf s.data

/-- Rust `str::trim` (the ASCII fragment of the whitespace class). -/
def strTrim (s : String) : String :=
  ⟨((s.data.dropWhile Char.isWhitespace).reverse.dropWhile Char.isWhitespace).reverse⟩

/-- Codepoint comparison of characters; for UTF-8 strings byte-wise
comparison (Rust `Ord` on `str`) coincides with codepoint comparison. -/
def charLtB (a b : Char) : Bool :=
  decide (a.toNat < b.toNat)

/-- Lexicographic strict order on character lists, as Rust `Ord` on `str`. -/
def listLexLtB : List Char → List Char → Bool
  | [], [] => false
  | [], _ :: _ => true
  | _ :: _, [] => false
  | a :: as, b :: bs =>
    if charLtB a b then true else if charLtB b a then false else listLexLtB as bs

/-- Rust `String` comparison, strict. -/
def strLtB (s t : String) : Bool :=
  listLexLtB s.data t.data

/-- Rust `String` comparison, lax. -/
def strLeB (s t : String) : Bool :=
  strLtB s t || s == t

/-! ### Ports and the autolink planner (src/system.rs, `plan_autolinks`) -/

/-- `struct PipewirePort` of src/system.rs. -/
structure PipewirePort where
  port_name : String
  is_input : Bool
  channel : Option String
deriving Repr, DecidableEq

/-- `channels_match` of src/system.rs. -/
def channels_match (left right : Option String) : Bool :=
  match left, right with
  | some a, some b => eqIgnoreAsciiCase a b
  | _, _ => false

/-- `pick_source_port_for_send` of src/system.rs. -/
def pick_source_port_for_send (source_ports : List PipewirePort)
    (send_port : PipewirePort) : Option PipewirePort :=
  let target_channel := send_port.channel.getD ""
  if target_channel ≠ "" then
    match source_ports.find? (fun p => channels_match p.channel (some target_channel)) with
    | some p => some p
    | none =>
      if eqIgnoreAsciiCase target_channel "FL" || eqIgnoreAsciiCase target_channel "FR" then
        match source_ports.find? (fun p => channels_match p.channel (some "MONO")) with
        | some p => some p
        | none => source_ports.head?
      else
        source_ports.head?
  else
    source_ports.head?

/-- Lexicographic order on pairs of strings, as Rust's derived `Ord` on
`(String, String)`. -/
def pairLeB (a b : String × String) : Bool :=
  strLtB a.1 b.1 || (a.1 == b.1 && strLeB a.2 b.2)

/-- The relation `links.sort()` sorts by. -/
def PairLe (a b : String × String) : Prop :=
  pairLeB a b = true

instance : DecidableRel PairLe := fun _ _ =>
  inferInstanceAs (Decidable (_ = true))

/-- Rust `Vec::dedup` (removes consecutive repeats), inner loop. -/
def dedupAdjGo [DecidableEq α] (prev : α) : List α → List α
  | [] => []
  | y :: ys => if y = prev then dedupAdjGo prev ys else y :: dedupAdjGo y ys

/-- Rust `Vec::dedup`: removes consecutive repeated elements. -/
def dedupAdj [DecidableEq α] : List α → List α
  | [] => []
  | x :: xs => x :: dedupAdjGo x xs

/-- `plan_autolinks` of src/system.rs: one planned `(source_port, send_port)`
pair per send port, then `links.sort()` and `links.dedup()`. -/
def plan_autolinks (source_ports send_ports : List PipewirePort) :
    List (String × String) :=
  let links := send_ports.filterMap (fun sp =>
    (pick_source_port_for_send source_ports sp).map
      (fun q => (q.port_name, sp.port_name)))
  dedupAdj (links.insertionSort PairLe)

/-! ### Reference definition of the planner, following the spec's words -/

/-- Reference selection chain of the spec (section 4.3), written from the
spec's words: exact case-insensitive channel match, then the mono fallback
for the stereo positions, then the first source port. -/
def selectSourcePortSpec (source_ports : List PipewirePort)
    (target : PipewirePort) : Option PipewirePort :=
  match target.channel with
  | some tag =>
    match source_ports.find? (fun p =>
        match p.channel with
        | some c => eqIgnoreAsciiCase c tag
        | none => false) with
    | some p => some p
    | none =>
      if eqIgnoreAsciiCase tag "FL" || eqIgnoreAsciiCase tag "FR" then
        match source_ports.find? (fun p =>
            match p.channel with
            | some c => eqIgnoreAsciiCase c "MONO"
            | none => false) with
        | some p => some p
        | none => source_ports.head?
      else
        source_ports.head?
  | none => source_ports.head?

/-- Removes every duplicate occurrence, keeping the first one. -/
def eraseDupsKeepFirst [DecidableEq α] : List α → List α
  | [] => []
  | x :: xs => x :: eraseDupsKeepFirst (xs.filter (fun y => y ≠ x))
termination_by l => l.length
decreasing_by simpa using Nat.lt_succ_of_le (List.length_filter_le _ _)

/-- Reference planner of the spec: the collected pairs, sorted
lexicographically, with exact-duplicate pairs removed. -/
def planAutolinksSpec (source_ports send_ports : List PipewirePort) :
    List (String × String) :=
  eraseDupsKeepFirst
    ((send_ports.filterMap (fun t =>
      (selectSourcePortSpec source_ports t).map
        (fun q => (q.port_name, t.port_name)))).insertionSort PairLe)

/-! ### Audio source records (src/system.rs, `AudioSourceDevice`) -/

/-- `struct AudioSourceDevice` of src/system.rs. -/
structure AudioSourceDevice where
  node_name : String
  description : String
deriving Repr, DecidableEq

/-- The sort key of `extract_audio_sources` / `merge_audio_sources`:
case-insensitive description first, logical node name as tie break. -/
def deviceKey (d : AudioSourceDevice) : String × String :=
  (asciiLower d.description, d.node_name)

/-- The comparator of the `sort_by` calls in src/system.rs. -/
def DeviceLe (a b : AudioSourceDevice) : Prop :=
  PairLe (deviceKey a) (deviceKey b)

instance : DecidableRel DeviceLe := fun _ _ =>
  inferInstanceAs (Decidable (PairLe _ _))

/-- The `devices.sort_by(..)` / `merged.sort_by(..)` calls of src/system.rs. -/
def sortDevices (ds : List AudioSourceDevice) : List AudioSourceDevice :=
  ds.insertionSort DeviceLe

/-- The `seen_names : HashSet` deduplication loops of src/system.rs,
threading the set of names already seen. -/
def dedupByNameGo (seen : List String) :
    List AudioSourceDevice → List AudioSourceDevice
  | [] => []
  | d :: ds =>
    if seen.contains d.node_name then dedupByNameGo seen ds
    else d :: dedupByNameGo (d.node_name :: seen) ds

/-- First-occurrence-wins deduplication by `node_name`. -/
def dedupByName (ds : List AudioSourceDevice) : List AudioSourceDevice :=
  dedupByNameGo [] ds

/-- Reference deduplication, following the spec's words: keep each record
and drop every later record carrying the same logical node name. -/
def specDedupByName : List AudioSourceDevice → List AudioSourceDevice
  | [] => []
  | d :: ds => d :: specDedupByName (ds.filter (fun x => x.node_name ≠ d.node_name))
termination_by l => l.length
decreasing_by simpa using Nat.lt_succ_of_le (List.length_filter_le _ _)

/-! ### JSON values (serde_json::Value, restricted to what the engine reads) -/

/-- `serde_json::Value`. -/
inductive Json where
  | null
  | bool (b : Bool)
  | num (n : Int)
  | str (s : String)
  | arr (xs : List Json)
  | obj (fields : List (String × Json))

/-- Field lookup in an object body (`serde_json::Map::get`). -/
def lookupField (fields : List (String × Json)) (k : String) : Option Json :=
  (fields.find? (fun f => f.1 == k)).map (fun f => f.2)

/-- `Value::get` with a string index. -/
def Json.get? : Json → String → Option Json
  | .obj fields, k => lookupField fields k
  | _, _ => none

/-- `Value::as_str`. -/
def Json.asStr : Json → Option String
  | .str s => some s
  | _ => none

/-- `Value::as_object`, returning the field list. -/
def Json.asObj : Json → Option (List (String × Json))
  | .obj fields => some fields
  | _ => none

/-! ### Audio source extraction (src/system.rs, `extract_audio_sources`) -/

/-- `is_monitor_source` of src/system.rs. -/
def is_monitor_source (node_name : String) : Bool :=
  strContainsSub node_name ".monitor"

/-- Models `media_class.get(..13)`: the first 13 characters when they exist.
The byte-level slice of the Rust code agrees with this char-level model
whenever the result is compared ASCII-case-insensitively to the ASCII
literal `"Audio/Source/"`. -/
def strTake13 (s : String) : Option String :=
  if 13 ≤ s.data.length then some ⟨s.data.take 13⟩ else none

/-- `is_audio_source_media_class` of src/system.rs. -/
def is_audio_source_media_class (media_class : String) : Bool :=
  eqIgnoreAsciiCase media_class "Audio/Source" ||
    (match strTake13 media_class with
     | some p => eqIgnoreAsciiCase p "Audio/Source/"
     | none => false)

/-- Whether an entry is a full-graph (pw-dump style) entry: it has an
`info` key (`entry.get("info").is_some()`). -/
def entryIsPwDump (entry : Json) : Bool :=
  (entry.get? "info").isSome

/-- The property bag of an entry: `info.props` for full-graph entries,
else the top-level `properties` object. -/
def entryProps (entry : Json) : Option (List (String × Json)) :=
  (((entry.get? "info").bind (fun i => i.get? "props")).bind Json.asObj).or
    ((entry.get? "properties").bind Json.asObj)

/-- The media-class resolution of `extract_audio_sources`. -/
def entryMediaClass (entry : Json) : String :=
  (((entryProps entry).bind (fun props => lookupField props "media.class")).bind
    Json.asStr).getD ""

/-- The logical-name resolution chain of `extract_audio_sources`: first
populated of `props["node.name"]`, `props["source_name"]`, `props["name"]`,
`entry["name"]`, read as a string and trimmed. -/
def entryNodeName (entry : Json) : String :=
  match entryProps entry with
  | none => ""
  | some props =>
    (((((lookupField props "node.name").or (lookupField props "source_name")).or
        (lookupField props "name")).or (entry.get? "name")).bind Json.asStr
      |>.map strTrim).getD ""

/-- The description resolution chain of `extract_audio_sources`, falling
back to the resolved node name. -/
def entryDescription (entry : Json) (node_name : String) : String :=
  match entryProps entry with
  | none => node_name
  | some props =>
    (((((lookupField props "node.description").or
          (lookupField props "device.description")).or
        (lookupField props "description")).or (entry.get? "description")).bind
        Json.asStr
      |>.map strTrim |>.bind (fun s => if s == "" then none else some s)).getD
      node_name

/-- The per-entry body of the loop of `extract_audio_sources` (everything up
to the `seen_names` check): `none` means the entry is skipped. -/
def entryToDevice (entry : Json) : Option AudioSourceDevice :=
  match entryProps entry with
  | none => none
  | some _ =>
    if entryIsPwDump entry && !is_audio_source_media_class (entryMediaClass entry) then
      none
    else
      let node_name := entryNodeName entry
      if node_name == "" || is_monitor_source node_name then none
      else some ⟨node_name, entryDescription entry node_name⟩

/-- `extract_audio_sources` of src/system.rs: the per-entry body, the
`seen_names` deduplication, and the final `sort_by`. -/
def extract_audio_sources (entries : List Json) : List AudioSourceDevice :=
  sortDevices (dedupByName (entries.filterMap entryToDevice))

/-- `merge_audio_sources` of src/system.rs: chain the two lists, deduplicate
by node name first-wins, sort by the case-insensitive description key. -/
def merge_audio_sources (first second : List AudioSourceDevice) :
    List AudioSourceDevice :=
  sortDevices (dedupByName (first ++ second))

/-- `list_microphone_sources` of src/system.rs, as a function of the two
backend outcomes (the shelling-out itself is the external capability). -/
def list_microphone_sources
    (pw_dump_result pactl_result : Except String (List AudioSourceDevice)) :
    Except String (List AudioSourceDevice) :=
  match pw_dump_result, pactl_result with
  | .ok pw_dump_devices, .ok pactl_devices =>
    .ok (merge_audio_sources pw_dump_devices pactl_devices)
  | .ok pw_dump_devices, .error _ => .ok pw_dump_devices
  | .error _, .ok pactl_devices => .ok pactl_devices
  | .error pw_dump_error, .error pactl_error =>
    .error ("Could not list PipeWire sources. pw-dump: " ++ pw_dump_error ++
      " | pactl: " ++ pactl_error)

/-! ### Link applier (src/system.rs, `ensure_pw_link`) -/

/-- The observable outcome of one external command invocation: its exit
status and diagnostic text (`std::process::Output`, restricted to what
`ensure_pw_link` reads). -/
structure CommandOutput where
  success : Bool
  stderr : String
deriving Repr, DecidableEq

/-- The already-exists diagnostic test of `ensure_pw_link`: the lowered
stderr contains one of the three known phrases. -/
def alreadyExistsDiag (stderr : String) : Bool :=
  let stderr_lower := asciiLower stderr
  strContainsSub stderr_lower "file exists" ||
    strContainsSub stderr_lower "already linked" ||
    strContainsSub stderr_lower "already exists"

/-- `ensure_pw_link` of src/system.rs, as a function of the `pw-link`
command's output: `ok true` is `Created`, `ok false` is `AlreadyExists`. -/
def ensure_pw_link (output : CommandOutput) : Except String Bool :=
  if output.success then .ok true
  else if alreadyExistsDiag output.stderr then .ok false
  else .error ("`pw-link` failed: " ++ strTrim output.stderr)

/-! ### Topology snapshot and `autolink_send_sources` (src/system.rs) -/

/-- `struct PipewireTopology` of src/system.rs; the two hash maps are
modelled as association lists. -/
structure PipewireTopology where
  nodes_by_name : List (String × Nat)
  ports_by_node : List (Nat × List PipewirePort)
deriving Repr

/-- `topology.nodes_by_name.get(name)`. -/
def lookupNode (topo : PipewireTopology) (name : String) : Option Nat :=
  ((topo.nodes_by_name.find? (fun e => e.1 == name)).map (fun e => e.2))

/-- `topology.ports_by_node.get(&id)`. -/
def lookupPorts (topo : PipewireTopology) (id : Nat) : Option (List PipewirePort) :=
  ((topo.ports_by_node.find? (fun e => e.1 == id)).map (fun e => e.2))

/-- `struct VbanSend` of src/model.rs, restricted to the fields the engine
reads. -/
structure VbanSend where
  id : String
  enabled : Bool
  node_name : String
  target_object : String
deriving Repr, DecidableEq

/-- `struct VbanRecv` of src/model.rs, restricted to the fields the engine
reads. -/
structure VbanRecv where
  id : String
  enabled : Bool
deriving Repr, DecidableEq

/-- `struct AppConfig` of src/model.rs, restricted to the fields the engine
reads. -/
structure AppConfig where
  sends : List VbanSend
  recvs : List VbanRecv
deriving Repr, DecidableEq

/-- `struct AutoLinkSummary` of src/system.rs. -/
structure AutoLinkSummary where
  links_created : Nat
  issues : List String
deriving Repr, DecidableEq

/-- The outcome of `pw-link <source_node>:<source_port> <send_node>:<send_port>`
for each pair of specs: the external link-creation capability. -/
def LinkOracle : Type :=
  String → String → String → String → CommandOutput

/-- The body of the `for (source_port, send_port) in planned_links` loop of
`autolink_send_sources`. -/
def linkPairStep (oracle : LinkOracle) (source_node_name send_node_name : String)
    (summary : AutoLinkSummary) (pair : String × String) : AutoLinkSummary :=
  match ensure_pw_link (oracle source_node_name pair.1 send_node_name pair.2) with
  | .ok true => ⟨summary.links_created + 1, summary.issues⟩
  | .ok false => summary
  | .error e =>
    ⟨summary.links_created,
      summary.issues ++
        [source_node_name ++ ":" ++ pair.1 ++ " -> " ++ send_node_name ++ ":" ++
          pair.2 ++ ": " ++ e]⟩

/-- The body of the `for send in sends_to_link` loop of
`autolink_send_sources`, as the summary contribution of one send. -/
def processSend (topo : PipewireTopology) (oracle : LinkOracle)
    (send : VbanSend) : AutoLinkSummary :=
  let source_node_name := strTrim send.target_object
  let send_node_name := strTrim send.node_name
  match lookupNode topo source_node_name with
  | none => ⟨0, ["Source `" ++ source_node_name ++ "` not found in PipeWire."]⟩
  | some source_node_id =>
    match lookupNode topo send_node_name with
    | none =>
      ⟨0, ["Send node `" ++ send_node_name ++ "` not found (try `Apply + restart`)."]⟩
    | some send_node_id =>
      let source_ports :=
        ((lookupPorts topo source_node_id).getD []).filter (fun p => !p.is_input)
      let send_ports :=
        ((lookupPorts topo send_node_id).getD []).filter (fun p => p.is_input)
      if source_ports.isEmpty then
        ⟨0, ["Source `" ++ source_node_name ++ "` has no output audio ports."]⟩
      else if send_ports.isEmpty then
        ⟨0, ["Send `" ++ send_node_name ++ "` has no input audio ports."]⟩
      else
        let planned_links := plan_autolinks source_ports send_ports
        if planned_links.isEmpty then
          ⟨0, ["No compatible ports found for `" ++ send_node_name ++ "`."]⟩
        else
          planned_links.foldl (linkPairStep oracle source_node_name send_node_name)
            ⟨0, []⟩

/-- The filter of `autolink_send_sources`: enabled sends with a non-empty
trimmed target binding. -/
def sendQualifies (send : VbanSend) : Bool :=
  send.enabled && !(strTrim send.target_object == "")

/-- `autolink_send_sources` of src/system.rs, as a function of the topology
snapshot and the link-creation capability: folds every qualifying send's
contribution into one summary. -/
def autolink_send_sources (topo : PipewireTopology) (oracle : LinkOracle)
    (cfg : AppConfig) : AutoLinkSummary :=
  let sends_to_link := cfg.sends.filter sendQualifies
  sends_to_link.foldl (fun summary send =>
    let p := processSend topo oracle send
    ⟨summary.links_created + p.links_created, summary.issues ++ p.issues⟩)
    ⟨0, []⟩

/-! ### Fragment reconciler (src/system.rs, `apply_pipewire_fragments`) -/

/-- The fragment directory: file name to file content.  An association list
models the writable directory; `apply_pipewire_fragments` only ever reads it
through name lookups and the `read_dir` sweep. -/
def Dir : Type :=
  List (String × String)

/-- Content of the file named `n`, when present (first entry wins; the
reconciler keeps names unique). -/
def lookupFile (d : Dir) (n : String) : Option String :=
  ((d.find? (fun e => e.1 == n)).map (fun e => e.2))

/-- `path.exists()`. -/
def existsFile (d : Dir) (n : String) : Bool :=
  d.any (fun e => e.1 == n)

/-- `fs::write` (create-or-overwrite). -/
def writeFile (d : Dir) (n c : String) : Dir :=
  d.filter (fun e => e.1 ≠ n) ++ [(n, c)]

/-- `fs::remove_file`. -/
def removeFile (d : Dir) (n : String) : Dir :=
  d.filter (fun e => e.1 ≠ n)

/-- Modelled from the spec: `filename_send` lives in src/pipewire_conf.rs,
which is not among the sources; the spec (sections 4.5 and 8) fixes the
deterministic naming convention `"99-rustban-send-<id>.conf"` derived from
the kind and the stable identity. -/
def filename_send (id : String) : String :=
  "99-rustban-send-" ++ id ++ ".conf"

/-- Modelled from the spec: `filename_recv` lives in src/pipewire_conf.rs,
which is not among the sources; the spec fixes the convention
`"99-rustban-recv-<id>.conf"`. -/
def filename_recv (id : String) : String :=
  "99-rustban-recv-" ++ id ++ ".conf"

/-- `is_rustban_fragment` of src/system.rs. -/
def is_rustban_fragment (name : String) : Bool :=
  let is_send := strStartsWithB name "99-rustban-send-"
  let is_recv := strStartsWithB name "99-rustban-recv-"
  (is_send || is_recv) && strEndsWithB name ".conf"

/-- `cleanup_removed_entries` of src/system.rs: delete every file matching
the naming convention whose name is not in the keep set. -/
def cleanup_removed_entries (d : Dir) (keep : List String) : Dir :=
  d.filter (fun e => !(is_rustban_fragment e.1) || keep.contains e.1)

/-- The body of the `for send in &cfg.sends` loop of
`apply_pipewire_fragments`.  `renderS` abstracts the external
`render_send(send, &cfg.host_info_emulation)`. -/
def sendFragmentStep (renderS : VbanSend → String) (d : Dir)
    (send : VbanSend) : Dir :=
  let file_name := filename_send send.id
  if send.enabled then writeFile d file_name (renderS send)
  else if existsFile d file_name then removeFile d file_name
  else d

/-- The body of the `for recv in &cfg.recvs` loop of
`apply_pipewire_fragments`.  `renderR` abstracts the external
`render_recv(recv, &cfg.host_info_emulation)`. -/
def recvFragmentStep (renderR : VbanRecv → String) (d : Dir)
    (recv : VbanRecv) : Dir :=
  let file_name := filename_recv recv.id
  if recv.enabled then writeFile d file_name (renderR recv)
  else if existsFile d file_name then removeFile d file_name
  else d

/-- The keep set accumulated by `apply_pipewire_fragments`: the fragment
name of every declared send and recv, enabled or not. -/
def keepSet (cfg : AppConfig) : List String :=
  cfg.sends.map (fun s => filename_send s.id) ++
    cfg.recvs.map (fun r => filename_recv r.id)

/-- `apply_pipewire_fragments` of src/system.rs, as a transformation of the
fragment directory: the send loop, the recv loop, then the cleanup sweep. -/
def apply_pipewire_fragments (renderS : VbanSend → String)
    (renderR : VbanRecv → String) (cfg : AppConfig) (d : Dir) : Dir :=
  let d1 := cfg.sends.foldl (sendFragmentStep renderS) d
  let d2 := cfg.recvs.foldl (recvFragmentStep renderR) d1
  cleanup_removed_entries d2 (keepSet cfg)

/-! ### Order facts for the sort relations -/

theorem charLtB_asymm {a b : Char} (h : charLtB a b = true) : charLtB b a = false := by
  simp only [charLtB, decide_eq_true_eq, decide_eq_false_iff_not] at *
  omega

theorem charLtB_eq {a b : Char} (h1 : charLtB a b = false) (h2 : charLtB b a = false) :
    a = b := by
  simp only [charLtB, decide_eq_false_iff_not] at h1 h2
  have : a.toNat = b.toNat := by omega
  exact Char.ext (UInt32.ext this)

theorem charLtB_trans {a b c : Char} (h1 : charLtB a b = true)
    (h2 : charLtB b c = true) : charLtB a c = true := by
  simp only [charLtB, decide_eq_true_eq] at *
  omega

theorem listLexLtB_irrefl : ∀ l : List Char, listLexLtB l l = false := by
  intro l
  induction l with
  | nil => rfl
  | cons a as ih =>
    simp only [listLexLtB]
    have : charLtB a a = false := by
      simp [charLtB]
    simp [this, ih]

theorem listLexLtB_total : ∀ x y : List Char,
    listLexLtB x y = false → listLexLtB y x = false → x = y := by
  intro x
  induction x with
  | nil =>
    intro y h1 _
    cases y with
    | nil => rfl
    | cons b bs => simp [listLexLtB] at h1
  | cons a as ih =>
    intro y h1 h2
    cases y with
    | nil => simp [listLexLtB] at h2
    | cons b bs =>
      simp only [listLexLtB] at h1 h2
      by_cases hab : charLtB a b = true
      · simp [hab] at h1
      · rw [Bool.not_eq_true] at hab
        by_cases hba : charLtB b a = true
        · simp [hba] at h2
        · rw [Bool.not_eq_true] at hba
          have he : a = b := charLtB_eq hab hba
          subst he
          simp only [hab, Bool.false_eq_true, if_false] at h1 h2
          rw [ih bs h1 h2]

theorem listLexLtB_trans : ∀ x y z : List Char,
    listLexLtB x y = true → listLexLtB y z = true → listLexLtB x z = true := by
  intro x
  induction x with
  | nil =>
    intro y z h1 h2
    cases y with
    | nil => simp [listLexLtB] at h1
    | cons b bs =>
      cases z with
      | nil => simp [listLexLtB] at h2
      | cons c cs => rfl
  | cons a as ih =>
    intro y z h1 h2
    cases y with
    | nil => simp [listLexLtB] at h1
    | cons b bs =>
      cases z with
      | nil => simp [listLexLtB] at h2
      | cons c cs =>
        simp only [listLexLtB] at h1 h2 ⊢
        by_cases hab : charLtB a b = true
        · by_cases hbc : charLtB b c = true
          · simp [charLtB_trans hab hbc]
          · rw [Bool.not_eq_true] at hbc
            by_cases hcb : charLtB c b = true
            · simp [hbc, hcb] at h2
            · rw [Bool.not_eq_true] at hcb
              have : b = c := charLtB_eq hbc hcb
              subst this
              simp [hab]
        · rw [Bool.not_eq_true] at hab
          by_cases hba : charLtB b a = true
          · simp [hab, hba] at h1
          · rw [Bool.not_eq_true] at hba
            have : a = b := charLtB_eq hab hba
            subst this
            simp only [hab, Bool.false_eq_true, if_false] at h1 ⊢
            by_cases hac : charLtB a c = true
            · simp [hac]
            · rw [Bool.not_eq_true] at hac
              simp only [hac, Bool.false_eq_true, if_false] at h2 ⊢
              by_cases hca : charLtB c a = true
              · simp [hca] at h2
              · rw [Bool.not_eq_true] at hca
                simp only [hca, Bool.false_eq_true, if_false] at h2 ⊢
                exact ih bs cs h1 h2

theorem strLtB_irrefl (s : String) : strLtB s s = false :=
  listLexLtB_irrefl s.data

theorem strLtB_total {s t : String} (h1 : strLtB s t = false)
    (h2 : strLtB t s = false) : s = t := by
  exact String.ext (listLexLtB_total s.data t.data h1 h2)

theorem strLtB_trans {s t u : String} (h1 : strLtB s t = true)
    (h2 : strLtB t u = true) : strLtB s u = true :=
  listLexLtB_trans s.data t.data u.data h1 h2

theorem strLeB_refl (s : String) : strLeB s s = true := by
  simp [strLeB]

theorem strLeB_total (s t : String) : strLeB s t = true ∨ strLeB t s = true := by
  by_cases h1 : strLtB s t = true
  · exact Or.inl (by simp [strLeB, h1])
  · rw [Bool.not_eq_true] at h1
    by_cases h2 : strLtB t s = true
    · exact Or.inr (by simp [strLeB, h2])
    · rw [Bool.not_eq_true] at h2
      have : s = t := strLtB_total h1 h2
      subst this
      exact Or.inl (strLeB_refl s)

theorem strLeB_antisymm {s t : String} (h1 : strLeB s t = true)
    (h2 : strLeB t s = true) : s = t := by
  simp only [strLeB, Bool.or_eq_true, beq_iff_eq] at h1 h2
  rcases h1 with h1 | h1
  · rcases h2 with h2 | h2
    · have := strLtB_trans h1 h2
      rw [strLtB_irrefl] at this
      exact absurd this (by simp)
    · exact h2.symm
  · exact h1

theorem strLeB_trans {s t u : String} (h1 : strLeB s t = true)
    (h2 : strLeB t u = true) : strLeB s u = true := by
  simp only [strLeB, Bool.or_eq_true, beq_iff_eq] at h1 h2 ⊢
  rcases h1 with h1 | h1
  · rcases h2 with h2 | h2
    · exact Or.inl (strLtB_trans h1 h2)
    · exact Or.inl (h2 ▸ h1)
  · rcases h2 with h2 | h2
    · exact Or.inl (h1 ▸ h2)
    · exact Or.inr (h1.trans h2)

instance : IsTotal (String × String) PairLe where
  total a b := by
    unfold PairLe pairLeB
    by_cases h1 : strLtB a.1 b.1 = true
    · exact Or.inl (by simp [h1])
    · rw [Bool.not_eq_true] at h1
      by_cases h2 : strLtB b.1 a.1 = true
      · exact Or.inr (by simp [h2])
      · rw [Bool.not_eq_true] at h2
        have he : a.1 = b.1 := strLtB_total h1 h2
        rcases strLeB_total a.2 b.2 with h3 | h3
        · exact Or.inl (by simp [he, h3])
        · exact Or.inr (by simp [he, h3])

instance : IsTrans (String × String) PairLe where
  trans a b c hab hbc := by
    unfold PairLe pairLeB at *
    simp only [Bool.or_eq_true, Bool.and_eq_true, beq_iff_eq] at hab hbc ⊢
    rcases hab with h1 | ⟨h1, h1'⟩
    · rcases hbc with h2 | ⟨h2, _⟩
      · exact Or.inl (strLtB_trans h1 h2)
      · exact Or.inl (h2 ▸ h1)
    · rcases hbc with h2 | ⟨h2, h2'⟩
      · exact Or.inl (h1 ▸ h2)
      · exact Or.inr ⟨h1.trans h2, strLeB_trans h1' h2'⟩

theorem pairLe_antisymm {a b : String × String} (hab : PairLe a b) (hba : PairLe b a) :
    a = b := by
  unfold PairLe pairLeB at hab hba
  simp only [Bool.or_eq_true, Bool.and_eq_true, beq_iff_eq] at hab hba
  rcases hab with h1 | ⟨h1, h1'⟩
  · rcases hba with h2 | ⟨h2, _⟩
    · have := strLtB_trans h1 h2
      rw [strLtB_irrefl] at this
      exact absurd this (by simp)
    · rw [h2, strLtB_irrefl] at h1
      exact absurd h1 (by simp)
  · rcases hba with h2 | ⟨h2, h2'⟩
    · rw [h1, strLtB_irrefl] at h2
      exact absurd h2 (by simp)
    · obtain ⟨a1, a2⟩ := a
      obtain ⟨b1, b2⟩ := b
      simp only [Prod.mk.injEq]
      exact ⟨h1, strLeB_antisymm h1' h2'⟩


instance : IsTotal AudioSourceDevice DeviceLe where
  total a b := total_of PairLe (deviceKey a) (deviceKey b)

instance : IsTrans AudioSourceDevice DeviceLe where
  trans _ _ _ hab hbc := Trans.trans (r := PairLe) (s := PairLe) hab hbc


/-! ### Substring facts -/

theorem isInfixB_iff (pat l : List Char) : isInfixB pat l = true ↔ pat <:+: l := by
  induction l with
  | nil =>
    simp [isInfixB, List.isEmpty_iff, List.infix_nil]
  | cons a t ih =>
    simp [isInfixB, List.isPrefixOf_iff_prefix, ih, List.infix_cons_iff]

theorem strContainsSub_of_infix {s pat : String} (h : pat.data <:+: s.data) :
    strContainsSub s pat = true :=
  (isInfixB_iff pat.data s.data).mpr h

/-! ### C5, C6, C10 -/

/-- C5: `ensure_pw_link` returns `Created` (`ok true`) when the link command
succeeds; when the command fails but the diagnostic text matches one of the
known already-exists phrases case-insensitively it returns the
`AlreadyExists` no-op success (`ok false`); any other failure is an error
for that single pair. -/
theorem ensure_pw_link_cases (out : CommandOutput) :
    (out.success = true → ensure_pw_link out = .ok true) ∧
    (out.success = false → alreadyExistsDiag out.stderr = true →
      ensure_pw_link out = .ok false) ∧
    (out.success = false → alreadyExistsDiag out.stderr = false →
      ensure_pw_link out = .error ("`pw-link` failed: " ++ strTrim out.stderr)) := by
  refine ⟨fun h => by simp [ensure_pw_link, h], fun h h2 => ?_, fun h h2 => ?_⟩ <;>
    simp [ensure_pw_link, h, h2]

/-- Witness for C5: a failing command whose mixed-case diagnostic names an
existing link is classified as `AlreadyExists`. -/
theorem ensure_pw_link_cases_witness :
    ensure_pw_link ⟨false, "failed: Link Already EXISTS"⟩ = .ok false :=
  (ensure_pw_link_cases ⟨false, "failed: Link Already EXISTS"⟩).2.1 rfl (by decide)

/-- C6: when exactly one backend succeeds its result is returned unchanged;
when both fail the listing fails with the single aggregated error message,
which contains both underlying failure texts. -/
theorem list_sources_backend_outcomes (devices : List AudioSourceDevice)
    (e e1 e2 : String) :
    list_microphone_sources (.ok devices) (.error e) = .ok devices ∧
    list_microphone_sources (.error e) (.ok devices) = .ok devices ∧
    list_microphone_sources (.error e1) (.error e2) =
      .error ("Could not list PipeWire sources. pw-dump: " ++ e1 ++
        " | pactl: " ++ e2) ∧
    strContainsSub ("Could not list PipeWire sources. pw-dump: " ++ e1 ++
      " | pactl: " ++ e2) e1 = true ∧
    strContainsSub ("Could not list PipeWire sources. pw-dump: " ++ e1 ++
      " | pactl: " ++ e2) e2 = true := by
  refine ⟨rfl, rfl, rfl, ?_, ?_⟩
  · apply strContainsSub_of_infix
    simp only [String.data_append, List.append_assoc]
    simpa [List.append_assoc] using
      List.infix_append "Could not list PipeWire sources. pw-dump: ".data e1.data
        (" | pactl: ".data ++ e2.data)
  · apply strContainsSub_of_infix
    simp only [String.data_append]
    exact (List.suffix_append _ e2.data).isInfix

/-- C10: with a non-empty source output port list and a non-empty send input
port list the planner always returns at least one link, because the
selection chain always falls back to the first source port; hence the
"No compatible ports found" branch is unreachable once both emptiness
checks have passed. -/
theorem plan_autolinks_nonempty (source_ports send_ports : List PipewirePort)
    (h1 : source_ports ≠ []) (h2 : send_ports ≠ []) :
    plan_autolinks source_ports send_ports ≠ [] := by
  cases send_ports with
  | nil => exact absurd rfl h2
  | cons t ts =>
    have hs : (pick_source_port_for_send source_ports t).isSome = true := by
      cases source_ports with
      | nil => exact absurd rfl h1
      | cons p ps =>
        by_cases hc : t.channel.getD "" = ""
        · simp [pick_source_port_for_send, hc]
        · by_cases hfl : (eqIgnoreAsciiCase (t.channel.getD "") "FL" ||
              eqIgnoreAsciiCase (t.channel.getD "") "FR") = true
          · cases hfind : List.find?
                (fun q => channels_match q.channel (some (t.channel.getD ""))) (p :: ps) with
            | some q => simp [pick_source_port_for_send, hc, hfl, hfind]
            | none =>
              cases hfind2 : List.find?
                  (fun q => channels_match q.channel (some "MONO")) (p :: ps) with
              | some q => simp [pick_source_port_for_send, hc, hfl, hfind, hfind2]
              | none => simp [pick_source_port_for_send, hc, hfl, hfind, hfind2]
          · cases hfind : List.find?
                (fun q => channels_match q.channel (some (t.channel.getD ""))) (p :: ps) with
            | some q => simp [pick_source_port_for_send, hc, hfl, hfind]
            | none => simp [pick_source_port_for_send, hc, hfl, hfind]
    obtain ⟨q, hq⟩ := Option.isSome_iff_exists.mp hs
    show dedupAdj (List.insertionSort PairLe _) ≠ []
    cases hsort : List.insertionSort PairLe
        ((t :: ts).filterMap (fun sp => (pick_source_port_for_send source_ports sp).map
          (fun q => (q.port_name, sp.port_name)))) with
    | nil =>
      have hlen := List.length_insertionSort PairLe
        ((t :: ts).filterMap (fun sp => (pick_source_port_for_send source_ports sp).map
          (fun q => (q.port_name, sp.port_name))))
      rw [hsort] at hlen
      simp [List.filterMap_cons, hq] at hlen
    | cons x xs =>
      simp [dedupAdj]

/-- Witness for C10 at concrete non-empty port lists. -/
theorem plan_autolinks_nonempty_witness :
    plan_autolinks [⟨"out", false, none⟩] [⟨"in", true, none⟩] ≠ [] :=
  plan_autolinks_nonempty [⟨"out", false, none⟩] [⟨"in", true, none⟩]
    (by decide) (by decide)

/-! ### C4: the media-class filter of the extraction -/

/-- C4: a full-graph (pw-dump style) entry whose media class does not
indicate an audio source (`Audio/Source` or an `Audio/Source/...` sub-kind,
ASCII-case-insensitively) is dropped; for legacy (pactl style) entries the
media-class property has no effect on the extraction; the class predicate
accepts `Audio/Source` and its sub-kinds and rejects other classes. -/
theorem extract_class_filter (e : Json) :
    (entryIsPwDump e = true →
      is_audio_source_media_class (entryMediaClass e) = false →
      entryToDevice e = none) ∧
    (∀ (props : List (String × Json)) (c₁ c₂ : Json),
      entryToDevice (Json.obj [("properties", Json.obj (("media.class", c₁) :: props))]) =
        entryToDevice (Json.obj [("properties", Json.obj (("media.class", c₂) :: props))])) ∧
    is_audio_source_media_class "Audio/Source" = true ∧
    is_audio_source_media_class "Audio/Source/Virtual" = true ∧
    is_audio_source_media_class "audio/source" = true ∧
    is_audio_source_media_class "Audio/Sink" = false := by
  refine ⟨fun h1 h2 => ?_, fun props c₁ c₂ => ?_, by decide, by decide, by decide, by decide⟩
  · unfold entryToDevice
    cases hp : entryProps e with
    | none => rfl
    | some fields => simp [h1, h2]
  · rfl

/-- Witness for C4: a pw-dump entry carrying the `Audio/Sink` class is
dropped by the extraction. -/
theorem extract_class_filter_witness :
    entryToDevice (Json.obj [("info", Json.obj [("props", Json.obj
      [("media.class", Json.str "Audio/Sink"),
       ("node.name", Json.str "s")])])]) = none :=
  (extract_class_filter (Json.obj [("info", Json.obj [("props", Json.obj
      [("media.class", Json.str "Audio/Sink"),
       ("node.name", Json.str "s")])])])).1 (by decide) (by decide)

/-! ### C8: the monitor rule -/

theorem mem_dedupByNameGo {d : AudioSourceDevice} :
    ∀ {l : List AudioSourceDevice} {seen : List String},
      d ∈ dedupByNameGo seen l → d ∈ l := by
  intro l
  induction l with
  | nil => intro seen h; simp [dedupByNameGo] at h
  | cons x xs ih =>
    intro seen h
    unfold dedupByNameGo at h
    by_cases hc : seen.contains x.node_name
    · rw [if_pos hc] at h
      exact List.mem_cons_of_mem x (ih h)
    · rw [if_neg hc] at h
      rcases List.mem_cons.mp h with h | h
      · exact h ▸ List.mem_cons_self x xs
      · exact List.mem_cons_of_mem x (ih h)

theorem entryToDevice_monitor_false {e : Json} {d : AudioSourceDevice}
    (h : entryToDevice e = some d) : is_monitor_source d.node_name = false := by
  unfold entryToDevice at h
  cases hp : entryProps e with
  | none => rw [hp] at h; exact absurd h (by simp)
  | some fields =>
    simp only [hp] at h
    split at h
    · exact absurd h (by simp)
    · split at h
      · exact absurd h (by simp)
      · rename_i hcond
        rw [Option.some_inj] at h
        subst h
        have hcond2 : ¬ entryNodeName e = "" ∧
            is_monitor_source (entryNodeName e) = false := by simpa using hcond
        simpa using hcond2.2

theorem entryToDevice_none_of_monitor {e : Json}
    (h : strContainsSub (entryNodeName e) ".monitor" = true) :
    entryToDevice e = none := by
  unfold entryToDevice
  cases hp : entryProps e with
  | none => rfl
  | some fields =>
    simp only [hp]
    split
    · rfl
    · simp [is_monitor_source, h]

/-- C8 counterexample: the monitor rule is substring containment, not a
suffix check: the entry named `"mic.monitor.x"` does not end with
`".monitor"`, yet it is dropped, while the identical entry named
`"mic.x"` is kept. -/
theorem monitor_drop_not_suffix_only :
    strEndsWithB "mic.monitor.x" ".monitor" = false ∧
    extract_audio_sources [Json.obj [("info", Json.obj [("props", Json.obj
      [("media.class", Json.str "Audio/Source"),
       ("node.name", Json.str "mic.monitor.x"),
       ("node.description", Json.str "Mic")])])]] = [] ∧
    extract_audio_sources [Json.obj [("info", Json.obj [("props", Json.obj
      [("media.class", Json.str "Audio/Source"),
       ("node.name", Json.str "mic.x"),
       ("node.description", Json.str "Mic")])])]] = [⟨"mic.x", "Mic"⟩] :=
  ⟨by decide, by decide, by decide⟩

/-- C8 amended: the extraction drops exactly the entries whose resolved
logical name contains `".monitor"` as a substring (which includes every
name ending in `".monitor"`): no returned record's name contains it, an
entry whose resolved name contains it is always dropped, and every name
ending with the suffix contains it. -/
theorem monitor_exclusion_contains (entries : List Json) :
    (∀ d ∈ extract_audio_sources entries,
      strContainsSub d.node_name ".monitor" = false) ∧
    (∀ e : Json, strContainsSub (entryNodeName e) ".monitor" = true →
      entryToDevice e = none) ∧
    (∀ s : String, strEndsWithB s ".monitor" = true →
      strContainsSub s ".monitor" = true) := by
  refine ⟨?_, fun e h => entryToDevice_none_of_monitor h, ?_⟩
  · intro d hd
    have hd2 : d ∈ dedupByName (entries.filterMap entryToDevice) :=
      ((List.perm_insertionSort DeviceLe _).mem_iff).mp hd
    have hd3 : d ∈ entries.filterMap entryToDevice := mem_dedupByNameGo hd2
    obtain ⟨e, _, he⟩ := List.mem_filterMap.mp hd3
    have := entryToDevice_monitor_false he
    simpa [is_monitor_source] using this
  · intro s h
    unfold strEndsWithB at h
    exact strContainsSub_of_infix ((List.isSuffixOf_iff_suffix).mp h).isInfix

/-- Witness for the amended C8 at a concrete suffix-carrying name. -/
theorem monitor_exclusion_contains_witness :
    strContainsSub "a.monitor" ".monitor" = true :=
  (monitor_exclusion_contains []).2.2 "a.monitor" (by decide)

/-! ### C3: the merge policy of the source listing -/

theorem dedupByNameGo_eq_spec :
    ∀ (l : List AudioSourceDevice) (seen : List String),
      dedupByNameGo seen l =
        specDedupByName (l.filter (fun d => !(seen.contains d.node_name))) := by
  intro l
  induction l with
  | nil => intro seen; simp [dedupByNameGo, specDedupByName]
  | cons d ds ih =>
    intro seen
    by_cases hc : seen.contains d.node_name
    · simp only [dedupByNameGo, if_pos hc, List.filter_cons, hc, Bool.not_true,
        Bool.false_eq_true, if_false]
      exact ih seen
    · rw [Bool.not_eq_true] at hc
      have hnm : d.node_name ∉ seen := by simpa using hc
      have hff : (ds.filter (fun x => !(seen.contains x.node_name))).filter
          (fun y => y.node_name ≠ d.node_name) =
          ds.filter (fun x => !((d.node_name :: seen).contains x.node_name)) := by
        rw [List.filter_filter]
        apply List.filter_congr
        intro x _
        by_cases hxd : x.node_name = d.node_name
        · simp [hxd, List.contains_cons]
        · simp [hxd, List.contains_cons]
      rw [show List.filter (fun x => !(seen.contains x.node_name)) (d :: ds) =
          d :: List.filter (fun x => !(seen.contains x.node_name)) ds from by
        simp [List.filter_cons, hnm]]
      rw [show specDedupByName
            (d :: List.filter (fun x => !(seen.contains x.node_name)) ds) =
          d :: specDedupByName ((ds.filter (fun x => !(seen.contains x.node_name))).filter
            (fun y => y.node_name ≠ d.node_name)) from by
        simp [specDedupByName]]
      rw [hff]
      rw [show dedupByNameGo seen (d :: ds) =
          d :: dedupByNameGo (d.node_name :: seen) ds from by
        simp [dedupByNameGo, hnm]]
      rw [ih (d.node_name :: seen)]

theorem dedupByName_eq_spec (l : List AudioSourceDevice) :
    dedupByName l = specDedupByName l := by
  unfold dedupByName
  rw [dedupByNameGo_eq_spec]
  congr 1
  simp

/-- C3: when both backends succeed the listing returns the merge of the two
lists: their union (first list first), deduplicated by logical node name
with the first occurrence winning, sorted ascending by the case-insensitive
description with the logical name as tie break. -/
theorem list_sources_merge_policy (a b : List AudioSourceDevice) :
    list_microphone_sources (.ok a) (.ok b) = .ok (merge_audio_sources a b) ∧
    merge_audio_sources a b = sortDevices (specDedupByName (a ++ b)) ∧
    (merge_audio_sources a b).Perm (specDedupByName (a ++ b)) ∧
    (merge_audio_sources a b).Sorted DeviceLe := by
  have h2 : merge_audio_sources a b = sortDevices (specDedupByName (a ++ b)) := by
    unfold merge_audio_sources
    rw [dedupByName_eq_spec]
  refine ⟨rfl, h2, ?_, ?_⟩
  · rw [h2]
    exact List.perm_insertionSort DeviceLe _
  · exact List.sorted_insertionSort DeviceLe _

/-! ### C1: the planner against the reference definition -/

theorem pick_eq_select (source_ports : List PipewirePort) (t : PipewirePort)
    (h : t.channel ≠ some "") :
    pick_source_port_for_send source_ports t = selectSourcePortSpec source_ports t := by
  cases hc : t.channel with
  | none => simp [pick_source_port_for_send, selectSourcePortSpec, hc]
  | some tag =>
    have htag : tag ≠ "" := by
      intro he
      exact h (hc.trans (by rw [he]))
    have hfun1 : (fun p : PipewirePort => channels_match p.channel (some tag)) =
        (fun p : PipewirePort => match p.channel with
          | some c => eqIgnoreAsciiCase c tag
          | none => false) := by
      funext p
      cases p.channel <;> rfl
    have hfun2 : (fun p : PipewirePort => channels_match p.channel (some "MONO")) =
        (fun p : PipewirePort => match p.channel with
          | some c => eqIgnoreAsciiCase c "MONO"
          | none => false) := by
      funext p
      cases p.channel <;> rfl
    simp only [pick_source_port_for_send, selectSourcePortSpec, hc, Option.getD_some,
      hfun1, hfun2]
    rw [if_pos htag]

theorem filterMap_congr_of_mem {α β : Type _} {f g : α → Option β} :
    ∀ {l : List α}, (∀ a ∈ l, f a = g a) → l.filterMap f = l.filterMap g := by
  intro l
  induction l with
  | nil => intro _; rfl
  | cons a t ih =>
    intro h
    simp only [List.filterMap_cons, h a (List.mem_cons_self a t),
      ih (fun b hb => h b (List.mem_cons_of_mem a hb))]

theorem dedupAdjGo_eq_eraseDups {α : Type _} [DecidableEq α] {r : α → α → Prop}
    (hanti : ∀ {a b : α}, r a b → r b a → a = b) :
    ∀ (xs : List α) (x : α), (x :: xs).Sorted r →
      dedupAdjGo x xs = eraseDupsKeepFirst (xs.filter (fun y => y ≠ x)) := by
  intro xs
  induction xs with
  | nil =>
    intro x _
    simp [dedupAdjGo, eraseDupsKeepFirst]
  | cons y ys ih =>
    intro x hs
    have hxy : r x y := (List.pairwise_cons.mp hs).1 y (List.mem_cons_self y ys)
    have hs' : (y :: ys).Sorted r := (List.pairwise_cons.mp hs).2
    by_cases hyx : y = x
    · subst hyx
      rw [show dedupAdjGo y (y :: ys) = dedupAdjGo y ys from by simp [dedupAdjGo]]
      rw [ih y hs']
      congr 1
      simp
    · have hzy : ∀ z ∈ ys, z ≠ x := by
        intro z hz hzx
        have hyz : r y z := (List.pairwise_cons.mp hs').1 z hz
        rw [hzx] at hyz
        exact hyx (hanti hxy hyz).symm
      have hfy : ys.filter (fun z => z ≠ x) = ys :=
        List.filter_eq_self.mpr (fun a ha => by simpa using hzy a ha)
      rw [show dedupAdjGo x (y :: ys) = y :: dedupAdjGo y ys from by
        simp [dedupAdjGo, hyx]]
      rw [show ((y :: ys).filter (fun z => z ≠ x)) = y :: ys.filter (fun z => z ≠ x)
        from by simp [List.filter_cons, hyx]]
      rw [hfy]
      rw [show eraseDupsKeepFirst (y :: ys) =
          y :: eraseDupsKeepFirst (ys.filter (fun z => z ≠ y)) from by
        simp [eraseDupsKeepFirst]]
      rw [ih y hs']

theorem dedupAdj_eq_eraseDupsKeepFirst {α : Type _} [DecidableEq α] {r : α → α → Prop}
    (hanti : ∀ {a b : α}, r a b → r b a → a = b) (l : List α) (hs : l.Sorted r) :
    dedupAdj l = eraseDupsKeepFirst l := by
  cases l with
  | nil => simp [dedupAdj, eraseDupsKeepFirst]
  | cons x xs =>
    rw [show eraseDupsKeepFirst (x :: xs) =
        x :: eraseDupsKeepFirst (xs.filter (fun y => y ≠ x)) from by
      simp [eraseDupsKeepFirst]]
    rw [show dedupAdj (x :: xs) = x :: dedupAdjGo x xs from rfl]
    rw [dedupAdjGo_eq_eraseDups hanti xs x hs]

/-- C1: on well-formed ports (a present channel tag is never the empty
string, which the topology loader guarantees at every call site) the
planner coincides with the reference definition: per target input port the
selection chain (exact case-insensitive channel match, then the MONO
fallback for FL/FR, then the first source port), with the collected pairs
sorted lexicographically and exact duplicates removed. -/
theorem plan_autolinks_matches_reference (source_ports send_ports : List PipewirePort)
    (h : ∀ p ∈ send_ports, p.channel ≠ some "") :
    plan_autolinks source_ports send_ports =
      planAutolinksSpec source_ports send_ports := by
  unfold plan_autolinks planAutolinksSpec
  have hfm : send_ports.filterMap (fun sp =>
      (pick_source_port_for_send source_ports sp).map
        (fun q => (q.port_name, sp.port_name))) =
      send_ports.filterMap (fun t =>
        (selectSourcePortSpec source_ports t).map
          (fun q => (q.port_name, t.port_name))) :=
    filterMap_congr_of_mem (fun a ha => by rw [pick_eq_select source_ports a (h a ha)])
  rw [hfm]
  exact dedupAdj_eq_eraseDupsKeepFirst (fun hab hba => pairLe_antisymm hab hba) _
    (List.sorted_insertionSort PairLe _)

/-- Witness for C1: stereo targets over a mono source. -/
theorem plan_autolinks_matches_reference_witness :
    plan_autolinks [⟨"m", false, some "MONO"⟩]
        [⟨"l", true, some "FL"⟩, ⟨"r", true, some "FR"⟩] =
      planAutolinksSpec [⟨"m", false, some "MONO"⟩]
        [⟨"l", true, some "FL"⟩, ⟨"r", true, some "FR"⟩] :=
  plan_autolinks_matches_reference [⟨"m", false, some "MONO"⟩]
    [⟨"l", true, some "FL"⟩, ⟨"r", true, some "FR"⟩] (by decide)

/-! ### C7: best-effort aggregation in autolink_send_sources -/

theorem summary_foldl {α : Type _} (f : α → AutoLinkSummary) :
    ∀ (l : List α) (init : AutoLinkSummary),
      l.foldl (fun s x => ⟨s.links_created + (f x).links_created,
        s.issues ++ (f x).issues⟩) init =
      ⟨init.links_created + (l.map (fun x => (f x).links_created)).sum,
        init.issues ++ l.flatMap (fun x => (f x).issues)⟩ := by
  intro l
  induction l with
  | nil => intro init; simp
  | cons x xs ih =>
    intro init
    rw [List.foldl_cons, ih]
    simp [Nat.add_assoc, List.flatMap_cons, List.append_assoc]

theorem linkPairStep_decompose (oracle : LinkOracle) (sn tn : String)
    (s : AutoLinkSummary) (p : String × String) :
    linkPairStep oracle sn tn s p =
      ⟨s.links_created + (linkPairStep oracle sn tn ⟨0, []⟩ p).links_created,
        s.issues ++ (linkPairStep oracle sn tn ⟨0, []⟩ p).issues⟩ := by
  unfold linkPairStep
  cases ensure_pw_link (oracle sn p.1 tn p.2) with
  | ok b => cases b <;> simp
  | error e => simp

theorem linkPairs_fold (oracle : LinkOracle) (sn tn : String)
    (pairs : List (String × String)) :
    (pairs.foldl (linkPairStep oracle sn tn) ⟨0, []⟩).issues =
      pairs.flatMap (fun p => (linkPairStep oracle sn tn ⟨0, []⟩ p).issues) ∧
    (pairs.foldl (linkPairStep oracle sn tn) ⟨0, []⟩).links_created =
      (pairs.map (fun p => (linkPairStep oracle sn tn ⟨0, []⟩ p).links_created)).sum := by
  have hfun : linkPairStep oracle sn tn =
      (fun s p => ⟨s.links_created + (linkPairStep oracle sn tn ⟨0, []⟩ p).links_created,
        s.issues ++ (linkPairStep oracle sn tn ⟨0, []⟩ p).issues⟩) := by
    funext s p
    exact linkPairStep_decompose oracle sn tn s p
  rw [hfun, summary_foldl (linkPairStep oracle sn tn ⟨0, []⟩) pairs ⟨0, []⟩]
  simp

/-- C7: the batch never aborts: the summary of `autolink_send_sources` is
exactly the concatenation of the per-send contributions of every enabled
send with a non-empty trimmed target binding; an enabled send whose target
binding trims to empty contributes neither a link nor an issue; an
unresolved source or send node yields exactly one issue for that item; and
within one send the per-pair loop likewise accumulates every pair's
contribution independently. -/
theorem autolink_batch_behaviour (topo : PipewireTopology) (oracle : LinkOracle)
    (cfg : AppConfig) :
    (autolink_send_sources topo oracle cfg).issues =
      (cfg.sends.filter sendQualifies).flatMap
        (fun s => (processSend topo oracle s).issues) ∧
    (autolink_send_sources topo oracle cfg).links_created =
      ((cfg.sends.filter sendQualifies).map
        (fun s => (processSend topo oracle s).links_created)).sum ∧
    (∀ s : VbanSend, s.enabled = true → strTrim s.target_object = "" →
      ∀ (pre post : List VbanSend) (recvs : List VbanRecv),
        autolink_send_sources topo oracle ⟨pre ++ s :: post, recvs⟩ =
          autolink_send_sources topo oracle ⟨pre ++ post, recvs⟩) ∧
    (∀ s : VbanSend, lookupNode topo (strTrim s.target_object) = none →
      processSend topo oracle s =
        ⟨0, ["Source `" ++ strTrim s.target_object ++ "` not found in PipeWire."]⟩) ∧
    (∀ (s : VbanSend) (src_id : Nat),
      lookupNode topo (strTrim s.target_object) = some src_id →
      lookupNode topo (strTrim s.node_name) = none →
      processSend topo oracle s =
        ⟨0, ["Send node `" ++ strTrim s.node_name ++
          "` not found (try `Apply + restart`)."]⟩) ∧
    (∀ (pairs : List (String × String)) (sn tn : String),
      (pairs.foldl (linkPairStep oracle sn tn) ⟨0, []⟩).issues =
        pairs.flatMap (fun p => (linkPairStep oracle sn tn ⟨0, []⟩ p).issues) ∧
      (pairs.foldl (linkPairStep oracle sn tn) ⟨0, []⟩).links_created =
        (pairs.map (fun p => (linkPairStep oracle sn tn ⟨0, []⟩ p).links_created)).sum) := by
  have hmain : autolink_send_sources topo oracle cfg =
      (⟨0 + ((cfg.sends.filter sendQualifies).map
          (fun s => (processSend topo oracle s).links_created)).sum,
        [] ++ (cfg.sends.filter sendQualifies).flatMap
          (fun s => (processSend topo oracle s).issues)⟩ : AutoLinkSummary) :=
    summary_foldl (processSend topo oracle) (cfg.sends.filter sendQualifies) ⟨0, []⟩
  refine ⟨by rw [hmain]; simp, by rw [hmain]; simp, ?_, ?_, ?_, ?_⟩
  · intro s h1 h2 pre post recvs
    have hq : sendQualifies s = false := by
      simp [sendQualifies, h1, h2]
    simp only [autolink_send_sources]
    rw [List.filter_append, List.filter_append, List.filter_cons, hq]
    simp
  · intro s h
    simp [processSend, h]
  · intro s src_id h1 h2
    simp [processSend, h1, h2]
  · intro pairs sn tn
    exact linkPairs_fold oracle sn tn pairs

/-- Witness for C7 at a concrete configuration: one send with an unresolved
source, one with an empty binding, over an empty topology. -/
theorem autolink_batch_behaviour_witness :
    (autolink_send_sources ⟨[], []⟩ (fun _ _ _ _ => ⟨true, ""⟩)
        ⟨[⟨"aa", true, "vban-send-aa", "mic0"⟩], []⟩).issues =
      ([⟨"aa", true, "vban-send-aa", "mic0"⟩].filter sendQualifies).flatMap
        (fun s => (processSend ⟨[], []⟩ (fun _ _ _ _ => ⟨true, ""⟩) s).issues) ∧
    autolink_send_sources ⟨[], []⟩ (fun _ _ _ _ => ⟨true, ""⟩)
        ⟨[] ++ ⟨"bb", true, "vban-send-bb", " "⟩ :: [], []⟩ =
      autolink_send_sources ⟨[], []⟩ (fun _ _ _ _ => ⟨true, ""⟩) ⟨[] ++ [], []⟩ :=
  ⟨(autolink_batch_behaviour ⟨[], []⟩ (fun _ _ _ _ => ⟨true, ""⟩)
      ⟨[⟨"aa", true, "vban-send-aa", "mic0"⟩], []⟩).1,
    (autolink_batch_behaviour ⟨[], []⟩ (fun _ _ _ _ => ⟨true, ""⟩)
      ⟨[⟨"bb", true, "vban-send-bb", " "⟩], []⟩).2.2.1
      ⟨"bb", true, "vban-send-bb", " "⟩ rfl (by decide) [] [] []⟩

/-! ### Facts about the fragment naming convention -/

theorem is_rustban_fragment_filename_send (id : String) :
    is_rustban_fragment (filename_send id) = true := by
  have h1 : strStartsWithB (filename_send id) "99-rustban-send-" = true := by
    unfold strStartsWithB filename_send
    rw [List.isPrefixOf_iff_prefix]
    simp only [String.data_append]
    exact ⟨id.data ++ ".conf".data, by simp [List.append_assoc]⟩
  have h2 : strEndsWithB (filename_send id) ".conf" = true := by
    unfold strEndsWithB filename_send
    rw [List.isSuffixOf_iff_suffix]
    simp only [String.data_append]
    exact ⟨"99-rustban-send-".data ++ id.data, by simp [List.append_assoc]⟩
  unfold is_rustban_fragment
  rw [h1, h2]
  simp

theorem is_rustban_fragment_filename_recv (id : String) :
    is_rustban_fragment (filename_recv id) = true := by
  have h1 : strStartsWithB (filename_recv id) "99-rustban-recv-" = true := by
    unfold strStartsWithB filename_recv
    rw [List.isPrefixOf_iff_prefix]
    simp only [String.data_append]
    exact ⟨id.data ++ ".conf".data, by simp [List.append_assoc]⟩
  have h2 : strEndsWithB (filename_recv id) ".conf" = true := by
    unfold strEndsWithB filename_recv
    rw [List.isSuffixOf_iff_suffix]
    simp only [String.data_append]
    exact ⟨"99-rustban-recv-".data ++ id.data, by simp [List.append_assoc]⟩
  unfold is_rustban_fragment
  rw [h1, h2]
  simp

theorem filename_send_inj {a b : String} (h : filename_send a = filename_send b) :
    a = b := by
  unfold filename_send at h
  have hd := congrArg String.data h
  simp only [String.data_append] at hd
  exact String.ext (List.append_cancel_left (List.append_cancel_right hd))

theorem filename_recv_inj {a b : String} (h : filename_recv a = filename_recv b) :
    a = b := by
  unfold filename_recv at h
  have hd := congrArg String.data h
  simp only [String.data_append] at hd
  exact String.ext (List.append_cancel_left (List.append_cancel_right hd))

theorem filename_send_ne_recv (a b : String) : filename_send a ≠ filename_recv b := by
  intro h
  unfold filename_send filename_recv at h
  have hd := congrArg String.data h
  simp only [String.data_append] at hd
  rw [List.append_assoc, List.append_assoc] at hd
  have hlen : "99-rustban-send-".data.length = "99-rustban-recv-".data.length := by
    decide
  have hpre := (List.append_inj hd hlen).1
  exact absurd (String.ext hpre) (by decide)

/-! ### Directory lookup lemmas -/

theorem find?_filter_of_imp {α : Type _} {p q : α → Bool}
    (himp : ∀ a, q a = true → p a = true) :
    ∀ l : List α, (l.filter p).find? q = l.find? q := by
  intro l
  induction l with
  | nil => rfl
  | cons a as ih =>
    by_cases hp : p a = true
    · rw [List.filter_cons, if_pos hp]
      by_cases hq : q a = true
      · rw [List.find?_cons_of_pos _ hq, List.find?_cons_of_pos _ hq]
      · rw [Bool.not_eq_true] at hq
        rw [List.find?_cons_of_neg _ (by simp [hq]), List.find?_cons_of_neg _ (by simp [hq])]
        exact ih
    · rw [Bool.not_eq_true] at hp
      have hq : q a = false := by
        by_cases h : q a = true
        · exact absurd (himp a h) (by simp [hp])
        · exact Bool.not_eq_true _ |>.mp h
      rw [List.filter_cons, if_neg (by simp [hp])]
      rw [List.find?_cons_of_neg _ (by simp [hq])]
      exact ih

theorem lookupFile_writeFile_self (d : Dir) (n c : String) :
    lookupFile (writeFile d n c) n = some c := by
  unfold lookupFile writeFile
  rw [List.find?_append]
  have hnone : (d.filter (fun e => e.1 ≠ n)).find? (fun e => e.1 == n) = none := by
    rw [List.find?_eq_none]
    intro x hx
    have := List.of_mem_filter hx
    simp at this ⊢
    exact this
  rw [hnone]
  simp [List.find?]

theorem lookupFile_writeFile_ne (d : Dir) (n c m : String) (h : m ≠ n) :
    lookupFile (writeFile d n c) m = lookupFile d m := by
  unfold lookupFile writeFile
  rw [List.find?_append]
  rw [find?_filter_of_imp (fun a ha => by
    simp at ha ⊢
    rw [ha]
    exact h)]
  cases hf : d.find? (fun e => e.1 == m) with
  | some x => rfl
  | none =>
    show Option.map (fun e => e.2) (List.find? (fun e => e.1 == m) [(n, c)]) =
      Option.map (fun e => e.2) (none : Option (String × String))
    rw [List.find?_cons_of_neg _ (by simp; exact fun he => absurd he.symm h)]
    rfl

theorem lookupFile_removeFile_self (d : Dir) (n : String) :
    lookupFile (removeFile d n) n = none := by
  unfold lookupFile removeFile
  rw [List.find?_eq_none.mpr]
  · rfl
  · intro x hx
    have := List.of_mem_filter hx
    simp at this ⊢
    exact this

theorem lookupFile_removeFile_ne (d : Dir) (n m : String) (h : m ≠ n) :
    lookupFile (removeFile d n) m = lookupFile d m := by
  unfold lookupFile removeFile
  rw [find?_filter_of_imp (fun a ha => by
    simp at ha ⊢
    rw [ha]
    exact h)]

theorem lookupFile_of_existsFile_false {d : Dir} {n : String}
    (h : existsFile d n = false) : lookupFile d n = none := by
  unfold existsFile at h
  unfold lookupFile
  rw [List.find?_eq_none.mpr]
  · rfl
  · intro x hx
    have := List.any_eq_false.mp h x hx
    simpa using this

theorem lookupFile_filter_of_all {d : Dir} {p : String × String → Bool} {n : String}
    (h : ∀ c, p (n, c) = true) : lookupFile (d.filter p) n = lookupFile d n := by
  unfold lookupFile
  rw [find?_filter_of_imp (fun a ha => by
    have ha2 : a.1 = n := by simpa using ha
    have : a = (n, a.2) := by
      rw [← ha2]
    rw [this]
    exact h a.2)]

theorem lookupFile_filter_none {d : Dir} {p : String × String → Bool} {n : String}
    (h : ∀ c, p (n, c) = false) : lookupFile (d.filter p) n = none := by
  unfold lookupFile
  rw [List.find?_eq_none.mpr]
  · rfl
  · intro x hx
    have hpx := List.of_mem_filter hx
    intro hq
    have hx1 : x.1 = n := by simpa using hq
    have : x = (n, x.2) := by rw [← hx1]
    rw [this, h x.2] at hpx
    exact Bool.noConfusion hpx

/-! ### Step and fold lemmas for the reconciler -/

theorem lookupFile_sendFragmentStep_ne (renderS : VbanSend → String) (d : Dir)
    (send : VbanSend) (m : String) (h : m ≠ filename_send send.id) :
    lookupFile (sendFragmentStep renderS d send) m = lookupFile d m := by
  unfold sendFragmentStep
  by_cases he : send.enabled = true
  · rw [if_pos he]
    exact lookupFile_writeFile_ne d (filename_send send.id) (renderS send) m h
  · rw [if_neg he]
    by_cases hex : existsFile d (filename_send send.id) = true
    · rw [if_pos hex]
      exact lookupFile_removeFile_ne d (filename_send send.id) m h
    · rw [if_neg hex]

theorem lookupFile_recvFragmentStep_ne (renderR : VbanRecv → String) (d : Dir)
    (recv : VbanRecv) (m : String) (h : m ≠ filename_recv recv.id) :
    lookupFile (recvFragmentStep renderR d recv) m = lookupFile d m := by
  unfold recvFragmentStep
  by_cases he : recv.enabled = true
  · rw [if_pos he]
    exact lookupFile_writeFile_ne d (filename_recv recv.id) (renderR recv) m h
  · rw [if_neg he]
    by_cases hex : existsFile d (filename_recv recv.id) = true
    · rw [if_pos hex]
      exact lookupFile_removeFile_ne d (filename_recv recv.id) m h
    · rw [if_neg hex]

theorem lookupFile_foldl_sendStep (renderS : VbanSend → String) :
    ∀ (l : List VbanSend) (d : Dir) (m : String),
      (∀ s ∈ l, m ≠ filename_send s.id) →
      lookupFile (l.foldl (sendFragmentStep renderS) d) m = lookupFile d m := by
  intro l
  induction l with
  | nil => intro d m _; rfl
  | cons s ss ih =>
    intro d m h
    rw [List.foldl_cons]
    rw [ih _ m (fun t ht => h t (List.mem_cons_of_mem s ht))]
    exact lookupFile_sendFragmentStep_ne renderS d s m (h s (List.mem_cons_self s ss))

theorem lookupFile_foldl_recvStep (renderR : VbanRecv → String) :
    ∀ (l : List VbanRecv) (d : Dir) (m : String),
      (∀ r ∈ l, m ≠ filename_recv r.id) →
      lookupFile (l.foldl (recvFragmentStep renderR) d) m = lookupFile d m := by
  intro l
  induction l with
  | nil => intro d m _; rfl
  | cons r rs ih =>
    intro d m h
    rw [List.foldl_cons]
    rw [ih _ m (fun t ht => h t (List.mem_cons_of_mem r ht))]
    exact lookupFile_recvFragmentStep_ne renderR d r m (h r (List.mem_cons_self r rs))

theorem lookupFile_sendFragmentStep_enabled (renderS : VbanSend → String) (d : Dir)
    (send : VbanSend) (h : send.enabled = true) :
    lookupFile (sendFragmentStep renderS d send) (filename_send send.id) =
      some (renderS send) := by
  unfold sendFragmentStep
  rw [if_pos h]
  exact lookupFile_writeFile_self d (filename_send send.id) (renderS send)

theorem lookupFile_recvFragmentStep_enabled (renderR : VbanRecv → String) (d : Dir)
    (recv : VbanRecv) (h : recv.enabled = true) :
    lookupFile (recvFragmentStep renderR d recv) (filename_recv recv.id) =
      some (renderR recv) := by
  unfold recvFragmentStep
  rw [if_pos h]
  exact lookupFile_writeFile_self d (filename_recv recv.id) (renderR recv)

theorem lookupFile_sendFragmentStep_disabled (renderS : VbanSend → String) (d : Dir)
    (send : VbanSend) (h : send.enabled = false) :
    lookupFile (sendFragmentStep renderS d send) (filename_send send.id) = none := by
  unfold sendFragmentStep
  rw [if_neg (by simp [h])]
  by_cases hex : existsFile d (filename_send send.id) = true
  · rw [if_pos hex]
    exact lookupFile_removeFile_self d (filename_send send.id)
  · rw [if_neg hex]
    exact lookupFile_of_existsFile_false (Bool.not_eq_true _ |>.mp hex)

theorem lookupFile_recvFragmentStep_disabled (renderR : VbanRecv → String) (d : Dir)
    (recv : VbanRecv) (h : recv.enabled = false) :
    lookupFile (recvFragmentStep renderR d recv) (filename_recv recv.id) = none := by
  unfold recvFragmentStep
  rw [if_neg (by simp [h])]
  by_cases hex : existsFile d (filename_recv recv.id) = true
  · rw [if_pos hex]
    exact lookupFile_removeFile_self d (filename_recv recv.id)
  · rw [if_neg hex]
    exact lookupFile_of_existsFile_false (Bool.not_eq_true _ |>.mp hex)

/-- C9: the reconciler leaves every file whose name does not match the
naming convention byte-for-byte unchanged and present: its lookup in the
directory is the same before and after a full pass, for every declared
entity list, render function and initial directory state. -/
theorem fragments_touch_only_convention (renderS : VbanSend → String)
    (renderR : VbanRecv → String) (cfg : AppConfig) (d : Dir) (n : String)
    (h : is_rustban_fragment n = false) :
    lookupFile (apply_pipewire_fragments renderS renderR cfg d) n =
      lookupFile d n := by
  have hns : ∀ s ∈ cfg.sends, n ≠ filename_send s.id := by
    intro s _ he
    rw [he, is_rustban_fragment_filename_send] at h
    exact Bool.noConfusion h
  have hnr : ∀ r ∈ cfg.recvs, n ≠ filename_recv r.id := by
    intro r _ he
    rw [he, is_rustban_fragment_filename_recv] at h
    exact Bool.noConfusion h
  simp only [apply_pipewire_fragments, cleanup_removed_entries]
  rw [lookupFile_filter_of_all (fun c => by rw [h]; rfl)]
  rw [lookupFile_foldl_recvStep renderR cfg.recvs _ n hnr]
  rw [lookupFile_foldl_sendStep renderS cfg.sends d n hns]

/-- Witness for C9: `custom.conf` survives a pass untouched. -/
theorem fragments_touch_only_convention_witness :
    lookupFile (apply_pipewire_fragments (fun _ => "S") (fun _ => "R")
        ⟨[⟨"aa", true, "vban-send-aa", "mic0"⟩], [⟨"cc", false⟩]⟩
        [("custom.conf", "keep")]) "custom.conf" =
      lookupFile [("custom.conf", "keep")] "custom.conf" :=
  fragments_touch_only_convention (fun _ => "S") (fun _ => "R")
    ⟨[⟨"aa", true, "vban-send-aa", "mic0"⟩], [⟨"cc", false⟩]⟩
    [("custom.conf", "keep")] "custom.conf" (by decide)

/-! ### C2: the at-rest invariant of the fragment directory -/

/-- C2: after a successful reconciliation pass the directory maps the
fragment name of every enabled declared entity to its rendered body, and
maps no convention-matching name that is not an enabled entity's fragment
name (covering disabled entities, deleted entities and stray files), for
declared lists with the spec's unique stable identities. -/
theorem apply_fragments_invariant (renderS : VbanSend → String)
    (renderR : VbanRecv → String) (cfg : AppConfig) (d : Dir)
    (hs : (cfg.sends.map (fun s => s.id)).Nodup)
    (hr : (cfg.recvs.map (fun r => r.id)).Nodup) :
    (∀ s ∈ cfg.sends, s.enabled = true →
      lookupFile (apply_pipewire_fragments renderS renderR cfg d)
        (filename_send s.id) = some (renderS s)) ∧
    (∀ r ∈ cfg.recvs, r.enabled = true →
      lookupFile (apply_pipewire_fragments renderS renderR cfg d)
        (filename_recv r.id) = some (renderR r)) ∧
    (∀ n : String, is_rustban_fragment n = true →
      (∀ s ∈ cfg.sends, s.enabled = true → n ≠ filename_send s.id) →
      (∀ r ∈ cfg.recvs, r.enabled = true → n ≠ filename_recv r.id) →
      lookupFile (apply_pipewire_fragments renderS renderR cfg d) n = none) := by
  have hkeeps : ∀ s ∈ cfg.sends, (keepSet cfg).contains (filename_send s.id) = true := by
    intro s hmem
    have : filename_send s.id ∈ keepSet cfg :=
      List.mem_append_left _ (List.mem_map_of_mem (fun x => filename_send x.id) hmem)
    simpa using this
  have hkeepr : ∀ r ∈ cfg.recvs, (keepSet cfg).contains (filename_recv r.id) = true := by
    intro r hmem
    have : filename_recv r.id ∈ keepSet cfg :=
      List.mem_append_right _ (List.mem_map_of_mem (fun x => filename_recv x.id) hmem)
    simpa using this
  have hposts : ∀ (pre post : List VbanSend) (s : VbanSend),
      cfg.sends = pre ++ s :: post →
      ∀ t ∈ post, filename_send s.id ≠ filename_send t.id := by
    intro pre post s hsp t ht he
    have hid := filename_send_inj he
    rw [hsp] at hs
    have h1 : (pre.map (fun x => x.id) ++ s.id :: post.map (fun x => x.id)).Nodup := by
      simpa using hs
    have h3 : s.id ∉ post.map (fun x => x.id) :=
      (List.nodup_cons.mp h1.of_append_right).1
    exact h3 (by rw [hid]; exact List.mem_map_of_mem (fun x => x.id) ht)
  have hpostr : ∀ (pre post : List VbanRecv) (r : VbanRecv),
      cfg.recvs = pre ++ r :: post →
      ∀ t ∈ post, filename_recv r.id ≠ filename_recv t.id := by
    intro pre post r hrp t ht he
    have hid := filename_recv_inj he
    rw [hrp] at hr
    have h1 : (pre.map (fun x => x.id) ++ r.id :: post.map (fun x => x.id)).Nodup := by
      simpa using hr
    have h3 : r.id ∉ post.map (fun x => x.id) :=
      (List.nodup_cons.mp h1.of_append_right).1
    exact h3 (by rw [hid]; exact List.mem_map_of_mem (fun x => x.id) ht)
  refine ⟨?_, ?_, ?_⟩
  · intro s hmem hen
    obtain ⟨pre, post, hsp⟩ := List.append_of_mem hmem
    simp only [apply_pipewire_fragments, cleanup_removed_entries]
    rw [lookupFile_filter_of_all (fun c => by
      show (!(is_rustban_fragment (filename_send s.id)) ||
        (keepSet cfg).contains (filename_send s.id)) = true
      rw [hkeeps s hmem]
      simp)]
    rw [lookupFile_foldl_recvStep renderR cfg.recvs _ _
      (fun r _ => filename_send_ne_recv s.id r.id)]
    rw [hsp, List.foldl_append, List.foldl_cons]
    rw [lookupFile_foldl_sendStep renderS post _ _ (hposts pre post s hsp)]
    exact lookupFile_sendFragmentStep_enabled renderS _ s hen
  · intro r hmem hen
    obtain ⟨pre, post, hrp⟩ := List.append_of_mem hmem
    simp only [apply_pipewire_fragments, cleanup_removed_entries]
    rw [lookupFile_filter_of_all (fun c => by
      show (!(is_rustban_fragment (filename_recv r.id)) ||
        (keepSet cfg).contains (filename_recv r.id)) = true
      rw [hkeepr r hmem]
      simp)]
    rw [hrp, List.foldl_append, List.foldl_cons]
    rw [lookupFile_foldl_recvStep renderR post _ _ (hpostr pre post r hrp)]
    exact lookupFile_recvFragmentStep_enabled renderR _ r hen
  · intro n hfrag hens henr
    by_cases hcs : ∃ s ∈ cfg.sends, n = filename_send s.id
    · obtain ⟨s, hmem, hn⟩ := hcs
      have hdis : s.enabled = false := by
        by_cases he : s.enabled = true
        · exact absurd hn (hens s hmem he)
        · exact Bool.not_eq_true _ |>.mp he
      subst hn
      obtain ⟨pre, post, hsp⟩ := List.append_of_mem hmem
      simp only [apply_pipewire_fragments, cleanup_removed_entries]
      rw [lookupFile_filter_of_all (fun c => by
      show (!(is_rustban_fragment (filename_send s.id)) ||
        (keepSet cfg).contains (filename_send s.id)) = true
      rw [hkeeps s hmem]
      simp)]
      rw [lookupFile_foldl_recvStep renderR cfg.recvs _ _
        (fun r _ => filename_send_ne_recv s.id r.id)]
      rw [hsp, List.foldl_append, List.foldl_cons]
      rw [lookupFile_foldl_sendStep renderS post _ _ (hposts pre post s hsp)]
      exact lookupFile_sendFragmentStep_disabled renderS _ s hdis
    · by_cases hcr : ∃ r ∈ cfg.recvs, n = filename_recv r.id
      · obtain ⟨r, hmem, hn⟩ := hcr
        have hdis : r.enabled = false := by
          by_cases he : r.enabled = true
          · exact absurd hn (henr r hmem he)
          · exact Bool.not_eq_true _ |>.mp he
        subst hn
        obtain ⟨pre, post, hrp⟩ := List.append_of_mem hmem
        simp only [apply_pipewire_fragments, cleanup_removed_entries]
        rw [lookupFile_filter_of_all (fun c => by
      show (!(is_rustban_fragment (filename_recv r.id)) ||
        (keepSet cfg).contains (filename_recv r.id)) = true
      rw [hkeepr r hmem]
      simp)]
        rw [hrp, List.foldl_append, List.foldl_cons]
        rw [lookupFile_foldl_recvStep renderR post _ _ (hpostr pre post r hrp)]
        exact lookupFile_recvFragmentStep_disabled renderR _ r hdis
      · push_neg at hcs hcr
        have hnk : (keepSet cfg).contains n = false := by
          have hnot : n ∉ keepSet cfg := by
            intro hmem2
            rcases List.mem_append.mp hmem2 with hL | hR
            · obtain ⟨s, hsm, heq⟩ := List.mem_map.mp hL
              exact hcs s hsm heq.symm
            · obtain ⟨r, hrm, heq⟩ := List.mem_map.mp hR
              exact hcr r hrm heq.symm
          exact Bool.eq_false_iff.mpr (fun hc => hnot (by simpa using hc))
        simp only [apply_pipewire_fragments, cleanup_removed_entries]
        apply lookupFile_filter_none
        intro c
        show (!(is_rustban_fragment n) || (keepSet cfg).contains n) = false
        rw [hfrag, hnk]
        rfl

/-- Witness for C2 at a concrete configuration and initial directory. -/
theorem apply_fragments_invariant_witness :
    ((["aa", "bb"] : List String) = ["aa", "bb"] ∧
      ([⟨"aa", true, "vban-send-aa", "mic0"⟩,
        ⟨"bb", false, "vban-send-bb", ""⟩].map (fun s : VbanSend => s.id)).Nodup ∧
      ([⟨"cc", true⟩].map (fun r : VbanRecv => r.id)).Nodup) ∧
    ((∀ s ∈ ([⟨"aa", true, "vban-send-aa", "mic0"⟩,
        ⟨"bb", false, "vban-send-bb", ""⟩] : List VbanSend), s.enabled = true →
      lookupFile (apply_pipewire_fragments (fun s => "S" ++ s.id) (fun r => "R" ++ r.id)
        ⟨[⟨"aa", true, "vban-send-aa", "mic0"⟩, ⟨"bb", false, "vban-send-bb", ""⟩],
          [⟨"cc", true⟩]⟩
        [("custom.conf", "keep"), ("99-rustban-send-bb.conf", "old"),
          ("99-rustban-send-zz.conf", "stray")])
        (filename_send s.id) = some ("S" ++ s.id)) ∧
    (∀ r ∈ ([⟨"cc", true⟩] : List VbanRecv), r.enabled = true →
      lookupFile (apply_pipewire_fragments (fun s => "S" ++ s.id) (fun r => "R" ++ r.id)
        ⟨[⟨"aa", true, "vban-send-aa", "mic0"⟩, ⟨"bb", false, "vban-send-bb", ""⟩],
          [⟨"cc", true⟩]⟩
        [("custom.conf", "keep"), ("99-rustban-send-bb.conf", "old"),
          ("99-rustban-send-zz.conf", "stray")])
        (filename_recv r.id) = some ("R" ++ r.id)) ∧
    (∀ n : String, is_rustban_fragment n = true →
      (∀ s ∈ ([⟨"aa", true, "vban-send-aa", "mic0"⟩,
        ⟨"bb", false, "vban-send-bb", ""⟩] : List VbanSend),
        s.enabled = true → n ≠ filename_send s.id) →
      (∀ r ∈ ([⟨"cc", true⟩] : List VbanRecv),
        r.enabled = true → n ≠ filename_recv r.id) →
      lookupFile (apply_pipewire_fragments (fun s => "S" ++ s.id) (fun r => "R" ++ r.id)
        ⟨[⟨"aa", true, "vban-send-aa", "mic0"⟩, ⟨"bb", false, "vban-send-bb", ""⟩],
          [⟨"cc", true⟩]⟩
        [("custom.conf", "keep"), ("99-rustban-send-bb.conf", "old"),
          ("99-rustban-send-zz.conf", "stray")]) n = none)) :=
  ⟨⟨rfl, by decide, by decide⟩,
    apply_fragments_invariant (fun s => "S" ++ s.id) (fun r => "R" ++ r.id)
      ⟨[⟨"aa", true, "vban-send-aa", "mic0"⟩, ⟨"bb", false, "vban-send-bb", ""⟩],
        [⟨"cc", true⟩]⟩
      [("custom.conf", "keep"), ("99-rustban-send-bb.conf", "old"),
        ("99-rustban-send-zz.conf", "stray")] (by decide) (by decide)⟩

end Rustban
